import Mathlib

/-!
Verification of the `fallacy-arc` crate: a fallible atomically
reference-counted pointer `Arc<T>` with a non-owning `Weak<T>` observer.

The crate (src/arc.rs, src/weak.rs) is a thin newtype wrapper over
`std::sync::Arc` / `std::sync::Weak`; the reference-counting control block
and the counter protocol live in the standard library, outside the crate's
sources.  We therefore embed two layers:

* a `Std` layer (`StdArc`, `StdWeak` and their operations) modelled from the
  specification of the counter protocol (control block with `strong` and
  `weak` counters, the implicit weak reference held by the strong group,
  the zero-guarded upgrade);
* the crate layer (`Arc`, `Weak`), translated definition by definition from
  src/arc.rs and src/weak.rs, each function delegating to the `Std` layer
  exactly as the Rust source delegates to `std`.

Memory is an explicit heap of control blocks indexed by natural numbers;
pointers are indices.  All operations are state-passing functions on the
heap.  Concurrency is modelled by linearization: each atomic operation of
the protocol is one step, and interleavings are arbitrary sequences of
steps over a configuration that also tracks the multiset of live handles.
-/

/-- Size/alignment request, modelling `std::alloc::Layout`. -/
structure Layout where
  size : Nat
  align : Nat
deriving DecidableEq, Repr

/-- Modelled from the spec: `fallacy_alloc::AllocError` (the crate `fallacy-alloc`
is not part of these sources); the error carries the layout passed to
`AllocError::new`. -/
structure AllocError where
  layout : Layout
deriving DecidableEq, Repr

/-- Modelled from the spec: `AllocError::new(layout)`. -/
def AllocError.new (l : Layout) : AllocError := ⟨l⟩

/-- Round `n` up to a multiple of `a`. -/
def alignUp (n a : Nat) : Nat :=
  if a = 0 then n else ((n + a - 1) / a) * a

/-- Modelled from the spec: the layout of the control block that construction
requests from the allocator — storage sized and aligned for the value
together with the two `usize` atomic counters (8 bytes, 8-aligned each, on a
64-bit target): counters first, then the value at its alignment. -/
def arcInnerLayout (tl : Layout) : Layout :=
  let a := max 8 tl.align
  let off := alignUp 16 tl.align
  ⟨alignUp (off + tl.size) a, a⟩

/-- `Layout::new::<u32>()`. -/
def u32Layout : Layout := ⟨4, 4⟩

/-- A reference-counting control block: the single heap allocation holding
the payload (present only while `strong > 0`) and the two counters.  `weak`
is the internal weak counter, which includes the one implicit weak reference
held collectively by the strong group while `strong > 0`. -/
structure ControlBlock (α : Type) where
  strong : Nat
  weak : Nat
  value : Option α
deriving DecidableEq, Repr

/-- The heap: a map from block indices to allocated control blocks
(`none` = deallocated or never allocated), plus the next fresh index. -/
structure Heap (α : Type) where
  blocks : Nat → Option (ControlBlock α)
  next : Nat

variable {α : Type}

/-- The empty heap. -/
def Heap.empty : Heap α := ⟨fun _ => none, 0⟩

/-- Read the block at index `i`. -/
def Heap.get (h : Heap α) (i : Nat) : Option (ControlBlock α) :=
  h.blocks i

/-- Overwrite (or deallocate, with `none`) the block at index `i`. -/
def Heap.set (h : Heap α) (i : Nat) (b : Option (ControlBlock α)) : Heap α :=
  ⟨fun j => if j = i then b else h.blocks j, h.next⟩

/-- Allocate a fresh block, returning its index and the new heap. -/
def Heap.alloc (h : Heap α) (cb : ControlBlock α) : Nat × Heap α :=
  (h.next, ⟨fun j => if j = h.next then some cb else h.blocks j, h.next + 1⟩)

/-- The strong counter at index `i` (0 if the block is deallocated). -/
def Heap.strongAt (h : Heap α) (i : Nat) : Nat :=
  match h.get i with
  | some cb => cb.strong
  | none => 0

/-- The internal weak counter at index `i` (0 if the block is deallocated). -/
def Heap.weakAt (h : Heap α) (i : Nat) : Nat :=
  match h.get i with
  | some cb => cb.weak
  | none => 0

/-- The stored payload at index `i` (`none` once destroyed or deallocated). -/
def Heap.valueAt (h : Heap α) (i : Nat) : Option α :=
  match h.get i with
  | some cb => cb.value
  | none => none

/-- Modelled from the spec: a `std::sync::Arc` handle — a pointer to a
control block.  The type parameter is phantom; the payload lives in the heap. -/
structure StdArc (α : Type) where
  ptr : Nat
deriving DecidableEq, Repr

/-- Modelled from the spec: a `std::sync::Weak` handle — a pointer to a
control block, or the dangling sentinel produced by `Weak::new` (`none`). -/
structure StdWeak (α : Type) where
  ptr : Option Nat
deriving DecidableEq, Repr

/-- Modelled from the spec: `std::sync::Arc::try_new` — asks the allocator
for a control block; on success initializes `strong = 1`, `weak = 1`
(the implicit weak of the strong group), stores the value and returns a
handle to the fresh block; on allocator failure returns an error and
touches nothing. `allocOk` models the allocator's answer. -/
def StdArc.try_new (h : Heap α) (allocOk : Bool) (v : α) :
    Except Unit (StdArc α × Heap α) :=
  if allocOk then
    let p := h.alloc ⟨1, 1, some v⟩
    Except.ok (⟨p.1⟩, p.2)
  else
    Except.error ()

/-- Modelled from the spec: cloning a strong handle increments `strong`
by one (relaxed fetch-and-add) and returns a handle to the same block. -/
def StdArc.clone (h : Heap α) (s : StdArc α) : StdArc α × Heap α :=
  match h.get s.ptr with
  | some cb => (s, h.set s.ptr (some ⟨cb.strong + 1, cb.weak, cb.value⟩))
  | none => (s, h)

/-- Modelled from the spec: dropping a strong handle decrements `strong`;
the decrement that reaches zero destroys the payload and releases the
implicit weak; if that weak decrement reaches zero, the block is
deallocated. -/
def StdArc.drop (h : Heap α) (s : StdArc α) : Heap α :=
  match h.get s.ptr with
  | some cb =>
    if cb.strong ≤ 1 then
      if cb.weak ≤ 1 then h.set s.ptr none
      else h.set s.ptr (some ⟨0, cb.weak - 1, none⟩)
    else h.set s.ptr (some ⟨cb.strong - 1, cb.weak, cb.value⟩)
  | none => h

/-- Modelled from the spec: `std::sync::Arc::downgrade` increments `weak`
by one and returns an observer handle to the same block. -/
def StdArc.downgrade (h : Heap α) (s : StdArc α) : StdWeak α × Heap α :=
  match h.get s.ptr with
  | some cb => (⟨some s.ptr⟩, h.set s.ptr (some ⟨cb.strong, cb.weak + 1, cb.value⟩))
  | none => (⟨some s.ptr⟩, h)

/-- Modelled from the spec: `std::sync::Arc::strong_count` — a snapshot of
the strong counter. -/
def StdArc.strong_count (h : Heap α) (s : StdArc α) : Nat :=
  h.strongAt s.ptr

/-- Modelled from the spec: `std::sync::Arc::weak_count` — the internal weak
counter minus the implicit weak of the strong group, i.e. observer handles
only. -/
def StdArc.weak_count (h : Heap α) (s : StdArc α) : Nat :=
  h.weakAt s.ptr - 1

/-- Modelled from the spec: `std::sync::Arc::ptr_eq` — control-block address
comparison. -/
def StdArc.ptr_eq (s t : StdArc α) : Bool :=
  s.ptr == t.ptr

/-- Modelled from the spec: dereferencing a strong handle reads the payload. -/
def StdArc.deref (h : Heap α) (s : StdArc α) : Option α :=
  h.valueAt s.ptr

/-- Modelled from the spec: `std::sync::Weak::new` — the empty observer
handle, referencing no allocation. -/
def StdWeak.new : StdWeak α := ⟨none⟩

/-- Modelled from the spec: cloning an observer handle increments `weak`
by one; a no-op for the empty variant. -/
def StdWeak.clone (h : Heap α) (w : StdWeak α) : StdWeak α × Heap α :=
  match w.ptr with
  | none => (w, h)
  | some i =>
    match h.get i with
    | some cb => (w, h.set i (some ⟨cb.strong, cb.weak + 1, cb.value⟩))
    | none => (w, h)

/-- Modelled from the spec: dropping an observer handle decrements `weak`;
if the result is zero and `strong` is already zero, the block is
deallocated; a no-op for the empty variant. -/
def StdWeak.drop (h : Heap α) (w : StdWeak α) : Heap α :=
  match w.ptr with
  | none => h
  | some i =>
    match h.get i with
    | some cb =>
      if cb.weak - 1 = 0 ∧ cb.strong = 0 then h.set i none
      else h.set i (some ⟨cb.strong, cb.weak - 1, cb.value⟩)
    | none => h

/-- Modelled from the spec: `std::sync::Weak::upgrade` — the zero-guarded
compare-and-swap loop, linearized to one atomic step: read `strong`; if
zero (or the handle is empty), fail with no state change; otherwise
increment `strong` and return a new strong handle to the same block. -/
def StdWeak.upgrade (h : Heap α) (w : StdWeak α) : Option (StdArc α) × Heap α :=
  match w.ptr with
  | none => (none, h)
  | some i =>
    match h.get i with
    | some cb =>
      if cb.strong = 0 then (none, h)
      else (some ⟨i⟩, h.set i (some ⟨cb.strong + 1, cb.weak, cb.value⟩))
    | none => (none, h)

/-- Modelled from the spec: `std::sync::Weak::strong_count` — 0 for the
empty variant, else a snapshot of the strong counter. -/
def StdWeak.strong_count (h : Heap α) (w : StdWeak α) : Nat :=
  match w.ptr with
  | none => 0
  | some i => h.strongAt i

/-- Modelled from the spec: `std::sync::Weak::weak_count` — 0 for the empty
variant and once no strong handles remain; otherwise the internal weak
counter minus the implicit weak. -/
def StdWeak.weak_count (h : Heap α) (w : StdWeak α) : Nat :=
  match w.ptr with
  | none => 0
  | some i =>
    if h.strongAt i = 0 then 0 else h.weakAt i - 1

/-- Modelled from the spec: `std::sync::Weak::ptr_eq` — raw pointer
comparison; two empty handles share the dangling sentinel and compare
equal. -/
def StdWeak.ptr_eq (w x : StdWeak α) : Bool :=
  w.ptr == x.ptr

/-- src/arc.rs: `pub struct Arc<T: ?Sized>(StdArc<T>);`. -/
structure Arc (α : Type) where
  std : StdArc α
deriving DecidableEq, Repr

/-- src/weak.rs: `pub struct Weak<T: ?Sized>(StdWeak<T>);`. -/
structure Weak (α : Type) where
  std : StdWeak α
deriving DecidableEq, Repr

/-- src/arc.rs `Arc::from_std`. -/
def Arc.from_std (s : StdArc α) : Arc α := ⟨s⟩

/-- src/arc.rs `Arc::into_std`. -/
def Arc.into_std (a : Arc α) : StdArc α := a.std

/-- src/arc.rs `Arc::try_new`: delegates to `StdArc::try_new`, mapping an
allocation failure to `AllocError::new(Layout::new::<T>())`.  `tl` is
`Layout::new::<T>()`, the layout of the bare value type. -/
def Arc.try_new (h : Heap α) (tl : Layout) (allocOk : Bool) (v : α) :
    Except AllocError (Arc α × Heap α) :=
  match StdArc.try_new h allocOk v with
  | Except.ok (s, h2) => Except.ok (Arc.from_std s, h2)
  | Except.error _ => Except.error (AllocError.new tl)

/-- src/arc.rs `derive(Clone)`: delegates to the std clone. -/
def Arc.clone (h : Heap α) (a : Arc α) : Arc α × Heap α :=
  let p := StdArc.clone h a.std
  (Arc.from_std p.1, p.2)

/-- The crate's `Arc` drop is the compiler-generated drop of the wrapped
std handle. -/
def Arc.drop (h : Heap α) (a : Arc α) : Heap α :=
  StdArc.drop h a.std

/-- src/weak.rs `Weak::from_std`. -/
def Weak.from_std (w : StdWeak α) : Weak α := ⟨w⟩

/-- src/weak.rs `Weak::into_std`. -/
def Weak.into_std (w : Weak α) : StdWeak α := w.std

/-- src/arc.rs `Arc::downgrade`: `Weak::from_std(StdArc::downgrade(&this.0))`. -/
def Arc.downgrade (h : Heap α) (a : Arc α) : Weak α × Heap α :=
  let p := StdArc.downgrade h a.std
  (Weak.from_std p.1, p.2)

/-- src/arc.rs `Arc::strong_count`. -/
def Arc.strong_count (h : Heap α) (a : Arc α) : Nat :=
  StdArc.strong_count h a.std

/-- src/arc.rs `Arc::weak_count`. -/
def Arc.weak_count (h : Heap α) (a : Arc α) : Nat :=
  StdArc.weak_count h a.std

/-- src/arc.rs `Arc::ptr_eq`. -/
def Arc.ptr_eq (a b : Arc α) : Bool :=
  StdArc.ptr_eq a.std b.std

/-- src/arc.rs `Deref for Arc`. -/
def Arc.deref (h : Heap α) (a : Arc α) : Option α :=
  StdArc.deref h a.std

/-- src/weak.rs `Weak::new`. -/
def Weak.new : Weak α := ⟨StdWeak.new⟩

/-- src/weak.rs `derive(Clone)`: delegates to the std clone. -/
def Weak.clone (h : Heap α) (w : Weak α) : Weak α × Heap α :=
  let p := StdWeak.clone h w.std
  (Weak.from_std p.1, p.2)

/-- The crate's `Weak` drop is the compiler-generated drop of the wrapped
std handle. -/
def Weak.drop (h : Heap α) (w : Weak α) : Heap α :=
  StdWeak.drop h w.std

/-- src/weak.rs `Weak::upgrade`: `self.0.upgrade().map(Arc::from_std)`. -/
def Weak.upgrade (h : Heap α) (w : Weak α) : Option (Arc α) × Heap α :=
  let p := StdWeak.upgrade h w.std
  (p.1.map Arc.from_std, p.2)

/-- src/weak.rs `Weak::strong_count`. -/
def Weak.strong_count (h : Heap α) (w : Weak α) : Nat :=
  StdWeak.strong_count h w.std

/-- src/weak.rs `Weak::weak_count`. -/
def Weak.weak_count (h : Heap α) (w : Weak α) : Nat :=
  StdWeak.weak_count h w.std

/-- src/weak.rs `Weak::ptr_eq`. -/
def Weak.ptr_eq (w x : Weak α) : Bool :=
  StdWeak.ptr_eq w.std x.std

/-- src/weak.rs `Serialize for Weak`: `self.upgrade().serialize(serializer)` —
the encoded form is the payload of the upgraded handle when the upgrade
succeeds, the absence marker otherwise. -/
def Weak.serialize (h : Heap α) (w : Weak α) : Option α :=
  match Weak.upgrade h w with
  | (some a, h2) => Arc.deref h2 a
  | (none, _) => none

/-- src/weak.rs `Deserialize for Weak`: decodes and discards an
`Option<T>`, always returning `Weak::new()`. -/
def Weak.deserialize (_data : Option α) : Weak α :=
  Weak.new

@[simp]
theorem Heap.get_set_eq (h : Heap α) (i : Nat) (b : Option (ControlBlock α)) :
    (h.set i b).get i = b := by
  simp [Heap.get, Heap.set]

theorem Heap.get_set_ne (h : Heap α) (i j : Nat) (b : Option (ControlBlock α))
    (hij : j ≠ i) : (h.set i b).get j = h.get j := by
  simp [Heap.get, Heap.set, hij]

/-- A live allocation holding 42, at block index 0 (one strong handle, no
observers). -/
def liveHeap : Heap Nat :=
  (Heap.empty).set 0 (some ⟨1, 1, some 42⟩)

/-- An allocation at block index 0 whose payload has been destroyed
(`strong = 0`), kept alive by one observer handle. -/
def deadHeap : Heap Nat :=
  (Heap.empty).set 0 (some ⟨0, 1, none⟩)

/-- Claim C1: for every value `V`, if the allocator does not fail,
`try_new V` returns `Ok` with an owning handle whose strong count is 1,
whose accessor weak count (observer handles only) is 0 consistent with an
internal weak counter of 1, and which dereferences to `V`. -/
theorem arc_try_new_success (h : Heap α) (l : Layout) (v : α) :
    (Arc.try_new h l true v).toOption.map (fun p =>
      (Arc.strong_count p.2 p.1, Arc.weak_count p.2 p.1,
       Heap.weakAt p.2 p.1.std.ptr, Arc.deref p.2 p.1))
    = some (1, 0, 1, some v) := by
  simp [Arc.try_new, StdArc.try_new, Heap.alloc, Arc.strong_count,
    StdArc.strong_count, Arc.weak_count, StdArc.weak_count, Arc.deref,
    StdArc.deref, Arc.from_std, Heap.strongAt, Heap.weakAt, Heap.valueAt,
    Heap.get, Except.toOption]

/-- Claim C2, counterexample: on allocation failure the error does not
carry the layout requested from the allocator (value plus the two
counters); it carries `Layout::new::<T>()`, the layout of the bare value.
Concretely for `T = u32`: the error holds `(size 4, align 4)` while the
control block's layout is `(size 24, align 8)`. -/
theorem arc_try_new_error_layout_cex :
    Arc.try_new (Heap.empty (α := Nat)) u32Layout false 0
      = Except.error (AllocError.new u32Layout) ∧
    AllocError.new u32Layout ≠ AllocError.new (arcInnerLayout u32Layout) :=
  ⟨rfl, by decide⟩

/-- Claim C2, amended: for every value `V`, when the allocator fails,
`try_new V` returns an `AllocError` carrying the size and alignment of the
bare value type (`Layout::new::<T>()`), not of the whole control block, and
performs no other side effect: the result is exactly the error, no heap
state is produced or altered. -/
theorem arc_try_new_error (h : Heap α) (tl : Layout) (v : α) :
    Arc.try_new h tl false v = Except.error (AllocError.new tl) := rfl

/-- Claim C4: for every observer handle into block `i`, once every owning
handle is gone (`strong = 0`, which also covers a deallocated block),
`upgrade` returns `none` and leaves the heap unchanged. -/
theorem weak_upgrade_after_drop (h : Heap α) (w : Weak α) (i : Nat)
    (hptr : w.std.ptr = some i) (hdead : h.strongAt i = 0) :
    (Weak.upgrade h w).1 = none ∧ (Weak.upgrade h w).2 = h := by
  unfold Weak.upgrade StdWeak.upgrade
  rw [hptr]
  cases hblk : h.get i with
  | none => simp [hblk]
  | some cb =>
    have hz : cb.strong = 0 := by
      unfold Heap.strongAt at hdead
      rw [hblk] at hdead
      exact hdead
    simp only [hblk]
    simp [hz]

theorem weak_upgrade_after_drop_w :
    ((Weak.from_std ⟨some 0⟩ : Weak Nat).std.ptr = some 0 ∧
     deadHeap.strongAt 0 = 0) ∧
    ((Weak.upgrade deadHeap (Weak.from_std ⟨some 0⟩)).1 = none ∧
     (Weak.upgrade deadHeap (Weak.from_std ⟨some 0⟩)).2 = deadHeap) :=
  ⟨⟨rfl, rfl⟩, weak_upgrade_after_drop deadHeap (Weak.from_std ⟨some 0⟩) 0 rfl rfl⟩

/-- Claim C5: for every owning handle `a`, while at least one owning handle
to its block remains, upgrading the result of downgrading `a` yields `some`
of a handle that is pointer-identity-equal to `a` (indeed equal to `a`). -/
theorem arc_downgrade_upgrade (h : Heap α) (a : Arc α) (cb : ControlBlock α)
    (hblk : h.get a.std.ptr = some cb) (hs : 0 < cb.strong) :
    (Weak.upgrade (Arc.downgrade h a).2 (Arc.downgrade h a).1).1 = some a ∧
    Arc.ptr_eq a a = true := by
  constructor
  · have hns : ¬ cb.strong = 0 := Nat.pos_iff_ne_zero.mp hs
    simp only [Arc.downgrade, StdArc.downgrade, hblk, Weak.from_std,
      Weak.upgrade, StdWeak.upgrade, Heap.get_set_eq]
    simp [hns, Arc.from_std]
  · simp [Arc.ptr_eq, StdArc.ptr_eq]

theorem arc_downgrade_upgrade_w :
    (liveHeap.get (⟨⟨0⟩⟩ : Arc Nat).std.ptr = some ⟨1, 1, some 42⟩ ∧
     0 < (⟨1, 1, some 42⟩ : ControlBlock Nat).strong) ∧
    ((Weak.upgrade (Arc.downgrade liveHeap ⟨⟨0⟩⟩).2
        (Arc.downgrade liveHeap ⟨⟨0⟩⟩).1).1 = some ⟨⟨0⟩⟩ ∧
     Arc.ptr_eq (⟨⟨0⟩⟩ : Arc Nat) ⟨⟨0⟩⟩ = true) :=
  ⟨⟨rfl, by decide⟩,
   arc_downgrade_upgrade liveHeap ⟨⟨0⟩⟩ ⟨1, 1, some 42⟩ rfl (by decide)⟩

/-- Claim C6: the empty observer handle (`Weak::new`) never upgrades and
both of its count accessors always return 0, in every heap. -/
theorem weak_new_inert (h : Heap α) :
    (Weak.upgrade h (Weak.new : Weak α)).1 = none ∧
    Weak.strong_count h (Weak.new : Weak α) = 0 ∧
    Weak.weak_count h (Weak.new : Weak α) = 0 :=
  ⟨rfl, rfl, rfl⟩

/-- Claim C8: `Weak::ptr_eq` returns `true` exactly when both handles
reference the same control block, or both are the empty variant. -/
theorem weak_ptr_eq_spec (w x : Weak α) :
    Weak.ptr_eq w x = true ↔
      ((∃ i, w.std.ptr = some i ∧ x.std.ptr = some i) ∨
       (w.std.ptr = none ∧ x.std.ptr = none)) := by
  unfold Weak.ptr_eq StdWeak.ptr_eq
  rw [beq_iff_eq]
  cases hw : w.std.ptr <;> cases hx : x.std.ptr <;> simp
  exact eq_comm

/-- Claim C9: the serialization adapter encodes an observer handle as the
payload when `upgrade` succeeds (`strong > 0`) and as the absence marker
when it fails (`strong = 0`, or the empty handle), and decoding always
produces the empty observer handle — whose upgrade fails — regardless of
the decoded content. -/
theorem weak_serde_spec (h : Heap α) (w : Weak α) (i : Nat)
    (cb : ControlBlock α) (d : Option α)
    (hptr : w.std.ptr = some i) (hblk : h.get i = some cb) :
    (0 < cb.strong → Weak.serialize h w = cb.value) ∧
    (cb.strong = 0 → Weak.serialize h w = none) ∧
    Weak.serialize h (Weak.new : Weak α) = none ∧
    Weak.deserialize d = (Weak.new : Weak α) ∧
    (Weak.upgrade h (Weak.deserialize d)).1 = none := by
  refine ⟨?_, ?_, rfl, rfl, rfl⟩
  · intro hs
    have hns : ¬ cb.strong = 0 := Nat.pos_iff_ne_zero.mp hs
    simp only [Weak.serialize, Weak.upgrade, StdWeak.upgrade, hptr, hblk]
    simp [hns, Arc.deref, StdArc.deref, Arc.from_std, Heap.valueAt]
  · intro hz
    simp only [Weak.serialize, Weak.upgrade, StdWeak.upgrade, hptr, hblk]
    simp [hz]

theorem weak_serde_spec_w :
    ((Weak.from_std ⟨some 0⟩ : Weak Nat).std.ptr = some 0 ∧
     liveHeap.get 0 = some ⟨1, 1, some 42⟩) ∧
    (0 < (1 : Nat) →
      Weak.serialize liveHeap (Weak.from_std ⟨some 0⟩) = some 42) ∧
    Weak.deserialize (some (7 : Nat)) = (Weak.new : Weak Nat) :=
  ⟨⟨rfl, rfl⟩,
   fun hs => (weak_serde_spec liveHeap (Weak.from_std ⟨some 0⟩) 0
     ⟨1, 1, some 42⟩ (some 7) rfl rfl).1 hs,
   (weak_serde_spec liveHeap (Weak.from_std ⟨some 0⟩) 0
     ⟨1, 1, some 42⟩ (some 7) rfl rfl).2.2.2.1⟩

/-- Claim C10: the std conversions are mutually inverse — `from_std` after
`into_std` and `into_std` after `from_std` are both the identity, for owning
and observer handles alike — and they change no counter: every count read
through a converted handle equals the count read through the original. -/
theorem std_conversions_inverse (a : Arc α) (s : StdArc α) (w : Weak α)
    (x : StdWeak α) (h : Heap α) :
    Arc.from_std (Arc.into_std a) = a ∧ Arc.into_std (Arc.from_std s) = s ∧
    Weak.from_std (Weak.into_std w) = w ∧
    Weak.into_std (Weak.from_std x) = x ∧
    Arc.strong_count h (Arc.from_std s) = StdArc.strong_count h s ∧
    Arc.weak_count h (Arc.from_std s) = StdArc.weak_count h s ∧
    Weak.strong_count h (Weak.from_std x) = StdWeak.strong_count h x ∧
    Weak.weak_count h (Weak.from_std x) = StdWeak.weak_count h x :=
  ⟨rfl, rfl, rfl, rfl, rfl, rfl, rfl, rfl⟩

/-- `N` successive clones of the owning handle `a` (heap effect only;
every clone returns a handle to the same block). -/
def iterCloneA (h : Heap α) (a : Arc α) : Nat → Heap α
  | 0 => h
  | k + 1 => (Arc.clone (iterCloneA h a k) a).2

/-- `N` successive downgrades of the owning handle `a` (heap effect only). -/
def iterDowngradeA (h : Heap α) (a : Arc α) : Nat → Heap α
  | 0 => h
  | k + 1 => (Arc.downgrade (iterDowngradeA h a k) a).2

/-- `N` successive drops of copies of the owning handle `a`. -/
def iterDropA (h : Heap α) (a : Arc α) : Nat → Heap α
  | 0 => h
  | k + 1 => Arc.drop (iterDropA h a k) a

/-- `N` successive drops of copies of the observer handle `w`. -/
def iterDropW (h : Heap α) (w : Weak α) : Nat → Heap α
  | 0 => h
  | k + 1 => Weak.drop (iterDropW h w k) w

theorem Arc.clone_get (h : Heap α) (a : Arc α) (cb : ControlBlock α)
    (hblk : h.get a.std.ptr = some cb) :
    (Arc.clone h a).2.get a.std.ptr
      = some ⟨cb.strong + 1, cb.weak, cb.value⟩ := by
  simp [Arc.clone, StdArc.clone, hblk]

theorem Arc.downgrade_get (h : Heap α) (a : Arc α) (cb : ControlBlock α)
    (hblk : h.get a.std.ptr = some cb) :
    (Arc.downgrade h a).2.get a.std.ptr
      = some ⟨cb.strong, cb.weak + 1, cb.value⟩ := by
  simp [Arc.downgrade, StdArc.downgrade, hblk]

theorem Arc.drop_get_big (h : Heap α) (a : Arc α) (s wk : Nat) (val : Option α)
    (hblk : h.get a.std.ptr = some ⟨s, wk, val⟩) (h2 : 2 ≤ s) :
    (Arc.drop h a).get a.std.ptr = some ⟨s - 1, wk, val⟩ := by
  have hns : ¬ s ≤ 1 := by omega
  simp [Arc.drop, StdArc.drop, hblk, hns]

theorem Arc.drop_get_last_free (h : Heap α) (a : Arc α) (val : Option α)
    (hblk : h.get a.std.ptr = some ⟨1, 1, val⟩) :
    (Arc.drop h a).get a.std.ptr = none := by
  simp [Arc.drop, StdArc.drop, hblk]

theorem Arc.drop_get_last_kept (h : Heap α) (a : Arc α) (wk : Nat)
    (val : Option α) (hblk : h.get a.std.ptr = some ⟨1, wk, val⟩)
    (h2 : 2 ≤ wk) :
    (Arc.drop h a).get a.std.ptr = some ⟨0, wk - 1, none⟩ := by
  have hnw : ¬ wk ≤ 1 := by omega
  simp [Arc.drop, StdArc.drop, hblk, hnw]

theorem Weak.drop_get_mid (h : Heap α) (i : Nat) (s wk : Nat) (val : Option α)
    (hblk : h.get i = some ⟨s, wk, val⟩) (h2 : 2 ≤ wk) :
    (Weak.drop h (Weak.from_std ⟨some i⟩)).get i = some ⟨s, wk - 1, val⟩ := by
  have hne : ¬ (wk - 1 = 0 ∧ s = 0) := by omega
  simp [Weak.drop, Weak.from_std, StdWeak.drop, hblk, hne]

theorem Weak.drop_get_last (h : Heap α) (i : Nat) (val : Option α)
    (hblk : h.get i = some ⟨0, 1, val⟩) :
    (Weak.drop h (Weak.from_std ⟨some i⟩)).get i = none := by
  simp [Weak.drop, Weak.from_std, StdWeak.drop, hblk]

theorem Weak.drop_get_none (h : Heap α) (i : Nat) (hblk : h.get i = none) :
    (Weak.drop h (Weak.from_std ⟨some i⟩)).get i = none := by
  simp [Weak.drop, Weak.from_std, StdWeak.drop, hblk]

theorem iterCloneA_get (h : Heap α) (a : Arc α) (s wk : Nat) (val : Option α)
    (hblk : h.get a.std.ptr = some ⟨s, wk, val⟩) (N : Nat) :
    (iterCloneA h a N).get a.std.ptr = some ⟨s + N, wk, val⟩ := by
  induction N with
  | zero => simpa using hblk
  | succ k ih =>
    show (Arc.clone (iterCloneA h a k) a).2.get a.std.ptr = _
    rw [Arc.clone_get _ _ _ ih]
    rfl

theorem iterDowngradeA_get (h : Heap α) (a : Arc α) (s wk : Nat)
    (val : Option α) (hblk : h.get a.std.ptr = some ⟨s, wk, val⟩) (W : Nat) :
    (iterDowngradeA h a W).get a.std.ptr = some ⟨s, wk + W, val⟩ := by
  induction W with
  | zero => simpa using hblk
  | succ k ih =>
    show (Arc.downgrade (iterDowngradeA h a k) a).2.get a.std.ptr = _
    rw [Arc.downgrade_get _ _ _ ih]
    rfl

theorem iterDropA_get (h : Heap α) (a : Arc α) (s wk : Nat) (val : Option α)
    (hblk : h.get a.std.ptr = some ⟨s, wk, val⟩) :
    ∀ k, k < s → (iterDropA h a k).get a.std.ptr = some ⟨s - k, wk, val⟩ := by
  intro k
  induction k with
  | zero => intro _; simpa using hblk
  | succ n ih =>
    intro hlt
    have hn : (iterDropA h a n).get a.std.ptr = some ⟨s - n, wk, val⟩ :=
      ih (by omega)
    show (Arc.drop (iterDropA h a n) a).get a.std.ptr = _
    rw [Arc.drop_get_big _ _ _ _ _ hn (by omega)]
    rfl

theorem iterDropW_get (h : Heap α) (i wk : Nat)
    (hblk : h.get i = some ⟨0, wk, none⟩) (h1 : 1 ≤ wk) :
    ∀ j, j ≤ wk → (iterDropW h (Weak.from_std ⟨some i⟩) j).get i
      = if j < wk then some ⟨0, wk - j, none⟩ else none := by
  intro j
  induction j with
  | zero =>
    intro _
    simpa [Nat.lt_of_lt_of_le Nat.zero_lt_one h1] using hblk
  | succ n ih =>
    intro hle
    have hn : (iterDropW h (Weak.from_std ⟨some i⟩) n).get i
        = some ⟨0, wk - n, none⟩ := by
      rw [ih (by omega)]
      simp [Nat.lt_of_lt_of_le (Nat.lt_succ_self n) hle]
    show (Weak.drop (iterDropW h (Weak.from_std ⟨some i⟩) n)
        (Weak.from_std ⟨some i⟩)).get i = _
    by_cases hl : n + 1 < wk
    · rw [Weak.drop_get_mid _ _ _ _ _ hn (by omega)]
      simp [hl]
      omega
    · have heq : wk - n = 1 := by omega
      rw [heq] at hn
      rw [Weak.drop_get_last _ _ _ hn]
      simp [hl]

theorem iterDropW_get_none (h : Heap α) (i : Nat) (hblk : h.get i = none) :
    ∀ j, (iterDropW h (Weak.from_std ⟨some i⟩) j).get i = none := by
  intro j
  induction j with
  | zero => simpa using hblk
  | succ n ih =>
    show (Weak.drop (iterDropW h (Weak.from_std ⟨some i⟩) n)
        (Weak.from_std ⟨some i⟩)).get i = none
    exact Weak.drop_get_none _ _ ih

/-- Claim C3: starting from a freshly constructed owning handle (block
`strong = 1, weak = 1`, payload present), clone it `N` times and take `W`
observer handles; then drop the `N + 1` owning copies one by one.  During
the first `N` drops the payload is intact (the destructor has not run), the
`(N+1)`-th drop destroys the payload exactly once, and the backing block is
freed at that same drop precisely when no observer handle remains
(`W = 0`); with observers around, the block survives the payload and is
freed exactly at the `W`-th and last observer drop. -/
theorem arc_lifecycle (N W : Nat) (v : α) (h : Heap α) (a : Arc α)
    (hfresh : h.get a.std.ptr = some ⟨1, 1, some v⟩) :
    (∀ k, k ≤ N →
      (iterDropA (iterDowngradeA (iterCloneA h a N) a W) a k).get a.std.ptr
        = some ⟨N + 1 - k, W + 1, some v⟩) ∧
    ((iterDropA (iterDowngradeA (iterCloneA h a N) a W) a (N + 1)).get
        a.std.ptr = if W = 0 then none else some ⟨0, W, none⟩) ∧
    (∀ j, j ≤ W →
      (iterDropW (iterDropA (iterDowngradeA (iterCloneA h a N) a W) a (N + 1))
          (Weak.from_std ⟨some a.std.ptr⟩) j).get a.std.ptr
        = if j < W then some ⟨0, W - j, none⟩ else none) := by
  have hc : (iterCloneA h a N).get a.std.ptr = some ⟨1 + N, 1, some v⟩ :=
    iterCloneA_get h a 1 1 (some v) hfresh N
  have hd : (iterDowngradeA (iterCloneA h a N) a W).get a.std.ptr
      = some ⟨1 + N, 1 + W, some v⟩ :=
    iterDowngradeA_get _ a (1 + N) 1 (some v) hc W
  have hd' : (iterDowngradeA (iterCloneA h a N) a W).get a.std.ptr
      = some ⟨N + 1, W + 1, some v⟩ := by
    rw [hd, Nat.add_comm 1 N, Nat.add_comm 1 W]
  have hmain : ∀ k, k ≤ N →
      (iterDropA (iterDowngradeA (iterCloneA h a N) a W) a k).get a.std.ptr
        = some ⟨N + 1 - k, W + 1, some v⟩ := by
    intro k hk
    exact iterDropA_get _ a (N + 1) (W + 1) (some v) hd' k (by omega)
  have hlastpre : (iterDropA (iterDowngradeA (iterCloneA h a N) a W) a N).get
      a.std.ptr = some ⟨1, W + 1, some v⟩ := by
    have := hmain N (le_refl N)
    rwa [Nat.add_sub_cancel_left] at this
  have hfinal : (iterDropA (iterDowngradeA (iterCloneA h a N) a W) a
      (N + 1)).get a.std.ptr = if W = 0 then none else some ⟨0, W, none⟩ := by
    show (Arc.drop (iterDropA (iterDowngradeA (iterCloneA h a N) a W) a N)
        a).get a.std.ptr = _
    cases W with
    | zero => rw [Arc.drop_get_last_free _ a (some v) hlastpre]; rfl
    | succ w =>
      rw [Arc.drop_get_last_kept _ a (w + 2) (some v) hlastpre (by omega)]
      simp
  refine ⟨hmain, hfinal, ?_⟩
  intro j hj
  cases W with
  | zero =>
    have hz : (iterDropA (iterDowngradeA (iterCloneA h a N) a 0) a
        (N + 1)).get a.std.ptr = none := by simpa using hfinal
    rw [iterDropW_get_none _ a.std.ptr hz j]
    simp
  | succ w =>
    have hz : (iterDropA (iterDowngradeA (iterCloneA h a N) a (w + 1)) a
        (N + 1)).get a.std.ptr = some ⟨0, w + 1, none⟩ := by
      simpa using hfinal
    exact iterDropW_get _ a.std.ptr (w + 1) hz (by omega) j hj

theorem arc_lifecycle_w :
    (liveHeap.get (⟨⟨0⟩⟩ : Arc Nat).std.ptr = some ⟨1, 1, some 42⟩) ∧
    ((iterDropA (iterDowngradeA (iterCloneA liveHeap ⟨⟨0⟩⟩ 2) ⟨⟨0⟩⟩ 1)
        ⟨⟨0⟩⟩ 2).get 0 = some ⟨1, 2, some 42⟩ ∧
     (iterDropA (iterDowngradeA (iterCloneA liveHeap ⟨⟨0⟩⟩ 2) ⟨⟨0⟩⟩ 1)
        ⟨⟨0⟩⟩ 3).get 0 = some ⟨0, 1, none⟩ ∧
     (iterDropW (iterDropA (iterDowngradeA (iterCloneA liveHeap ⟨⟨0⟩⟩ 2)
          ⟨⟨0⟩⟩ 1) ⟨⟨0⟩⟩ 3) (Weak.from_std ⟨some 0⟩) 1).get 0 = none) := by
  have hfresh : liveHeap.get (⟨⟨0⟩⟩ : Arc Nat).std.ptr
      = some ⟨1, 1, some 42⟩ := rfl
  have hmain := arc_lifecycle 2 1 42 liveHeap ⟨⟨0⟩⟩ hfresh
  refine ⟨hfresh, ?_, ?_, ?_⟩
  · simpa using hmain.1 2 (by omega)
  · simpa using hmain.2.1
  · simpa using hmain.2.2 1 (by omega)

theorem Heap.strongAt_eq (h : Heap α) (i : Nat) (cb : ControlBlock α)
    (hgi : h.get i = some cb) : h.strongAt i = cb.strong := by
  unfold Heap.strongAt
  rw [hgi]

theorem Heap.strongAt_none (h : Heap α) (i : Nat) (hgi : h.get i = none) :
    h.strongAt i = 0 := by
  unfold Heap.strongAt
  rw [hgi]

theorem Heap.valueAt_eq (h : Heap α) (i : Nat) (cb : ControlBlock α)
    (hgi : h.get i = some cb) : h.valueAt i = cb.value := by
  unfold Heap.valueAt
  rw [hgi]

theorem Heap.strongAt_set_fields (h : Heap α) (i s w : Nat) (val : Option α) :
    (h.set i (some ⟨s, w, val⟩)).strongAt i = s := by
  unfold Heap.strongAt
  rw [Heap.get_set_eq]

theorem Heap.strongAt_set_none (h : Heap α) (i : Nat) :
    (h.set i none).strongAt i = 0 := by
  unfold Heap.strongAt
  rw [Heap.get_set_eq]

theorem Heap.strongAt_set_ne (h : Heap α) (i j : Nat)
    (b : Option (ControlBlock α)) (hji : j ≠ i) :
    (h.set i b).strongAt j = h.strongAt j := by
  unfold Heap.strongAt
  rw [Heap.get_set_ne _ _ _ _ hji]

theorem Heap.valueAt_set_fields (h : Heap α) (i s w : Nat) (val : Option α) :
    (h.set i (some ⟨s, w, val⟩)).valueAt i = val := by
  unfold Heap.valueAt
  rw [Heap.get_set_eq]

theorem Heap.valueAt_set_none (h : Heap α) (i : Nat) :
    (h.set i none).valueAt i = none := by
  unfold Heap.valueAt
  rw [Heap.get_set_eq]

theorem Heap.valueAt_set_ne (h : Heap α) (i j : Nat)
    (b : Option (ControlBlock α)) (hji : j ≠ i) :
    (h.set i b).valueAt j = h.valueAt j := by
  unfold Heap.valueAt
  rw [Heap.get_set_ne _ _ _ _ hji]

theorem Arc.clone_heap (h : Heap α) (i : Nat) (cb : ControlBlock α)
    (hgi : h.get i = some cb) :
    (Arc.clone h ⟨⟨i⟩⟩).2 = h.set i (some ⟨cb.strong + 1, cb.weak, cb.value⟩) := by
  simp [Arc.clone, StdArc.clone, hgi]

theorem Arc.clone_heap_none (h : Heap α) (i : Nat) (hgi : h.get i = none) :
    (Arc.clone h ⟨⟨i⟩⟩).2 = h := by
  simp [Arc.clone, StdArc.clone, hgi]

theorem Arc.drop_heap_free (h : Heap α) (i : Nat) (cb : ControlBlock α)
    (hgi : h.get i = some cb) (h1 : cb.strong ≤ 1) (h2 : cb.weak ≤ 1) :
    Arc.drop h ⟨⟨i⟩⟩ = h.set i none := by
  simp [Arc.drop, StdArc.drop, hgi, h1, h2]

theorem Arc.drop_heap_destroy (h : Heap α) (i : Nat) (cb : ControlBlock α)
    (hgi : h.get i = some cb) (h1 : cb.strong ≤ 1) (h2 : ¬ cb.weak ≤ 1) :
    Arc.drop h ⟨⟨i⟩⟩ = h.set i (some ⟨0, cb.weak - 1, none⟩) := by
  simp [Arc.drop, StdArc.drop, hgi, h1, h2]

theorem Arc.drop_heap_dec (h : Heap α) (i : Nat) (cb : ControlBlock α)
    (hgi : h.get i = some cb) (h1 : ¬ cb.strong ≤ 1) :
    Arc.drop h ⟨⟨i⟩⟩ = h.set i (some ⟨cb.strong - 1, cb.weak, cb.value⟩) := by
  simp [Arc.drop, StdArc.drop, hgi, h1]

theorem Arc.drop_heap_none (h : Heap α) (i : Nat) (hgi : h.get i = none) :
    Arc.drop h ⟨⟨i⟩⟩ = h := by
  simp [Arc.drop, StdArc.drop, hgi]

theorem Arc.downgrade_heap (h : Heap α) (i : Nat) (cb : ControlBlock α)
    (hgi : h.get i = some cb) :
    (Arc.downgrade h ⟨⟨i⟩⟩).2
      = h.set i (some ⟨cb.strong, cb.weak + 1, cb.value⟩) := by
  simp [Arc.downgrade, StdArc.downgrade, hgi]

theorem Arc.downgrade_heap_none (h : Heap α) (i : Nat) (hgi : h.get i = none) :
    (Arc.downgrade h ⟨⟨i⟩⟩).2 = h := by
  simp [Arc.downgrade, StdArc.downgrade, hgi]

theorem Weak.obs_clone_heap (h : Heap α) (i : Nat) (cb : ControlBlock α)
    (hgi : h.get i = some cb) :
    (Weak.clone h ⟨⟨some i⟩⟩).2
      = h.set i (some ⟨cb.strong, cb.weak + 1, cb.value⟩) := by
  simp [Weak.clone, StdWeak.clone, hgi]

theorem Weak.obs_clone_heap_none (h : Heap α) (i : Nat) (hgi : h.get i = none) :
    (Weak.clone h ⟨⟨some i⟩⟩).2 = h := by
  simp [Weak.clone, StdWeak.clone, hgi]

theorem Weak.obs_drop_heap_free (h : Heap α) (i : Nat) (cb : ControlBlock α)
    (hgi : h.get i = some cb) (hc : cb.weak - 1 = 0 ∧ cb.strong = 0) :
    Weak.drop h ⟨⟨some i⟩⟩ = h.set i none := by
  simp [Weak.drop, StdWeak.drop, hgi, hc.1, hc.2]

theorem Weak.obs_drop_heap_dec (h : Heap α) (i : Nat) (cb : ControlBlock α)
    (hgi : h.get i = some cb) (hc : ¬ (cb.weak - 1 = 0 ∧ cb.strong = 0)) :
    Weak.drop h ⟨⟨some i⟩⟩
      = h.set i (some ⟨cb.strong, cb.weak - 1, cb.value⟩) := by
  simp only [Weak.drop, StdWeak.drop, hgi, if_neg hc]

theorem Weak.drop_heap_none2 (h : Heap α) (i : Nat) (hgi : h.get i = none) :
    Weak.drop h ⟨⟨some i⟩⟩ = h := by
  simp [Weak.drop, StdWeak.drop, hgi]

theorem Weak.upgrade_heap_zero (h : Heap α) (i : Nat)
    (hz : h.strongAt i = 0) :
    Weak.upgrade h ⟨⟨some i⟩⟩ = (none, h) := by
  cases hgi : h.get i with
  | none => simp [Weak.upgrade, StdWeak.upgrade, hgi]
  | some cb =>
    rw [Heap.strongAt_eq _ _ _ hgi] at hz
    simp [Weak.upgrade, StdWeak.upgrade, hgi, hz]

theorem Weak.upgrade_heap_pos (h : Heap α) (i : Nat) (cb : ControlBlock α)
    (hgi : h.get i = some cb) (hnz : ¬ cb.strong = 0) :
    (Weak.upgrade h ⟨⟨some i⟩⟩).2
      = h.set i (some ⟨cb.strong + 1, cb.weak, cb.value⟩) := by
  simp [Weak.upgrade, StdWeak.upgrade, hgi, hnz]

theorem Arc.clone_valueAt (h : Heap α) (j i : Nat) :
    ((Arc.clone h ⟨⟨j⟩⟩).2).valueAt i = h.valueAt i := by
  cases hgj : h.get j with
  | none => rw [Arc.clone_heap_none _ _ hgj]
  | some cb =>
    rw [Arc.clone_heap _ _ _ hgj]
    by_cases hij : i = j
    · subst hij
      rw [Heap.valueAt_set_fields, Heap.valueAt_eq _ _ _ hgj]
    · rw [Heap.valueAt_set_ne _ _ _ _ hij]

theorem Arc.downgrade_valueAt (h : Heap α) (j i : Nat) :
    ((Arc.downgrade h ⟨⟨j⟩⟩).2).valueAt i = h.valueAt i := by
  cases hgj : h.get j with
  | none => rw [Arc.downgrade_heap_none _ _ hgj]
  | some cb =>
    rw [Arc.downgrade_heap _ _ _ hgj]
    by_cases hij : i = j
    · subst hij
      rw [Heap.valueAt_set_fields, Heap.valueAt_eq _ _ _ hgj]
    · rw [Heap.valueAt_set_ne _ _ _ _ hij]

theorem Weak.obs_clone_valueAt (h : Heap α) (j i : Nat) :
    ((Weak.clone h ⟨⟨some j⟩⟩).2).valueAt i = h.valueAt i := by
  cases hgj : h.get j with
  | none => rw [Weak.obs_clone_heap_none _ _ hgj]
  | some cb =>
    rw [Weak.obs_clone_heap _ _ _ hgj]
    by_cases hij : i = j
    · subst hij
      rw [Heap.valueAt_set_fields, Heap.valueAt_eq _ _ _ hgj]
    · rw [Heap.valueAt_set_ne _ _ _ _ hij]

theorem Weak.upgrade_valueAt (h : Heap α) (j i : Nat) :
    ((Weak.upgrade h ⟨⟨some j⟩⟩).2).valueAt i = h.valueAt i := by
  cases hgj : h.get j with
  | none => rw [show (Weak.upgrade h ⟨⟨some j⟩⟩).2 = h by
      simp [Weak.upgrade, StdWeak.upgrade, hgj]]
  | some cb =>
    by_cases hz : cb.strong = 0
    · rw [Weak.upgrade_heap_zero h j (Heap.strongAt_eq _ _ _ hgj ▸ hz)]
    · rw [Weak.upgrade_heap_pos _ _ _ hgj hz]
      by_cases hij : i = j
      · subst hij
        rw [Heap.valueAt_set_fields, Heap.valueAt_eq _ _ _ hgj]
      · rw [Heap.valueAt_set_ne _ _ _ _ hij]

theorem Arc.drop_valueAt_none (h : Heap α) (j i : Nat)
    (hv : h.valueAt i = none) : (Arc.drop h ⟨⟨j⟩⟩).valueAt i = none := by
  cases hgj : h.get j with
  | none => rw [Arc.drop_heap_none _ _ hgj]; exact hv
  | some cb =>
    by_cases h1 : cb.strong ≤ 1
    · by_cases h2 : cb.weak ≤ 1
      · rw [Arc.drop_heap_free _ _ _ hgj h1 h2]
        by_cases hij : i = j
        · subst hij; exact Heap.valueAt_set_none _ _
        · rw [Heap.valueAt_set_ne _ _ _ _ hij]; exact hv
      · rw [Arc.drop_heap_destroy _ _ _ hgj h1 h2]
        by_cases hij : i = j
        · subst hij; exact Heap.valueAt_set_fields _ _ _ _ _
        · rw [Heap.valueAt_set_ne _ _ _ _ hij]; exact hv
    · rw [Arc.drop_heap_dec _ _ _ hgj h1]
      by_cases hij : i = j
      · subst hij
        rw [Heap.valueAt_set_fields]
        rw [Heap.valueAt_eq _ _ _ hgj] at hv
        exact hv
      · rw [Heap.valueAt_set_ne _ _ _ _ hij]; exact hv

theorem Weak.obs_drop_valueAt_none (h : Heap α) (j i : Nat)
    (hv : h.valueAt i = none) :
    (Weak.drop h ⟨⟨some j⟩⟩).valueAt i = none := by
  cases hgj : h.get j with
  | none => rw [Weak.drop_heap_none2 _ _ hgj]; exact hv
  | some cb =>
    by_cases hc : cb.weak - 1 = 0 ∧ cb.strong = 0
    · rw [Weak.obs_drop_heap_free _ _ _ hgj hc]
      by_cases hij : i = j
      · subst hij; exact Heap.valueAt_set_none _ _
      · rw [Heap.valueAt_set_ne _ _ _ _ hij]; exact hv
    · rw [Weak.obs_drop_heap_dec _ _ _ hgj hc]
      by_cases hij : i = j
      · subst hij
        rw [Heap.valueAt_set_fields]
        rw [Heap.valueAt_eq _ _ _ hgj] at hv
        exact hv
      · rw [Heap.valueAt_set_ne _ _ _ _ hij]; exact hv

/-- A concurrent configuration: the heap, the multiset (as a list) of block
indices referenced by live owning handles, and the same for live non-empty
observer handles.  A thread can only act through a handle that exists. -/
structure Config (α : Type) where
  heap : Heap α
  owners : List Nat
  observers : List Nat

/-- One linearized atomic step of the protocol: any thread holding a handle
performs one operation.  Interleavings of concurrent clones, drops,
downgrades and upgrades are arbitrary sequences of such steps. -/
inductive Step : Config α → Config α → Prop where
  | cloneA (c : Config α) (i : Nat) (hm : i ∈ c.owners) :
      Step c ⟨(Arc.clone c.heap ⟨⟨i⟩⟩).2, i :: c.owners, c.observers⟩
  | dropA (c : Config α) (i : Nat) (hm : i ∈ c.owners) :
      Step c ⟨Arc.drop c.heap ⟨⟨i⟩⟩, c.owners.erase i, c.observers⟩
  | downgradeA (c : Config α) (i : Nat) (hm : i ∈ c.owners) :
      Step c ⟨(Arc.downgrade c.heap ⟨⟨i⟩⟩).2, c.owners, i :: c.observers⟩
  | cloneW (c : Config α) (i : Nat) (hm : i ∈ c.observers) :
      Step c ⟨(Weak.clone c.heap ⟨⟨some i⟩⟩).2, c.owners, i :: c.observers⟩
  | dropW (c : Config α) (i : Nat) (hm : i ∈ c.observers) :
      Step c ⟨Weak.drop c.heap ⟨⟨some i⟩⟩, c.owners, c.observers.erase i⟩
  | upgradeW (c : Config α) (i : Nat) (hm : i ∈ c.observers) :
      Step c ⟨(Weak.upgrade c.heap ⟨⟨some i⟩⟩).2,
        if c.heap.strongAt i = 0 then c.owners else i :: c.owners,
        c.observers⟩

/-- The counting invariant: at every block index, the strong counter equals
the number of live owning handles referencing that block. -/
def CInv (c : Config α) : Prop :=
  ∀ i, c.heap.strongAt i = List.count i c.owners

theorem CInv.step {c c' : Config α} (hInv : CInv c) (hs : Step c c') :
    CInv c' := by
  cases hs with
  | cloneA i hm =>
    intro j
    have hpos : 0 < c.heap.strongAt i := by
      rw [hInv i]
      exact List.count_pos_iff.mpr hm
    cases hgi : c.heap.get i with
    | none => rw [Heap.strongAt_none _ _ hgi] at hpos; omega
    | some cb =>
      have hcs : cb.strong = List.count i c.owners := by
        rw [← hInv i, Heap.strongAt_eq _ _ _ hgi]
      show ((Arc.clone c.heap ⟨⟨i⟩⟩).2).strongAt j = _
      rw [Arc.clone_heap _ _ _ hgi]
      by_cases hji : j = i
      · subst hji
        rw [Heap.strongAt_set_fields, List.count_cons_self]
        omega
      · rw [Heap.strongAt_set_ne _ _ _ _ hji, List.count_cons_of_ne hji]
        exact hInv j
  | dropA i hm =>
    intro j
    have hpos : 0 < c.heap.strongAt i := by
      rw [hInv i]
      exact List.count_pos_iff.mpr hm
    cases hgi : c.heap.get i with
    | none => rw [Heap.strongAt_none _ _ hgi] at hpos; omega
    | some cb =>
      have hcs : cb.strong = List.count i c.owners := by
        rw [← hInv i, Heap.strongAt_eq _ _ _ hgi]
      have hps : 0 < cb.strong := by
        rw [Heap.strongAt_eq _ _ _ hgi] at hpos
        exact hpos
      show (Arc.drop c.heap ⟨⟨i⟩⟩).strongAt j = _
      by_cases h1 : cb.strong ≤ 1
      · by_cases h2 : cb.weak ≤ 1
        · rw [Arc.drop_heap_free _ _ _ hgi h1 h2]
          by_cases hji : j = i
          · subst hji
            rw [Heap.strongAt_set_none, List.count_erase_self]
            omega
          · rw [Heap.strongAt_set_ne _ _ _ _ hji, List.count_erase_of_ne hji]
            exact hInv j
        · rw [Arc.drop_heap_destroy _ _ _ hgi h1 h2]
          by_cases hji : j = i
          · subst hji
            rw [Heap.strongAt_set_fields, List.count_erase_self]
            omega
          · rw [Heap.strongAt_set_ne _ _ _ _ hji, List.count_erase_of_ne hji]
            exact hInv j
      · rw [Arc.drop_heap_dec _ _ _ hgi h1]
        by_cases hji : j = i
        · subst hji
          rw [Heap.strongAt_set_fields, List.count_erase_self]
          omega
        · rw [Heap.strongAt_set_ne _ _ _ _ hji, List.count_erase_of_ne hji]
          exact hInv j
  | downgradeA i hm =>
    intro j
    show ((Arc.downgrade c.heap ⟨⟨i⟩⟩).2).strongAt j = _
    cases hgi : c.heap.get i with
    | none => rw [Arc.downgrade_heap_none _ _ hgi]; exact hInv j
    | some cb =>
      rw [Arc.downgrade_heap _ _ _ hgi]
      by_cases hji : j = i
      · subst hji
        rw [Heap.strongAt_set_fields, ← hInv j, Heap.strongAt_eq _ _ _ hgi]
      · rw [Heap.strongAt_set_ne _ _ _ _ hji]
        exact hInv j
  | cloneW i hm =>
    intro j
    show ((Weak.clone c.heap ⟨⟨some i⟩⟩).2).strongAt j = _
    cases hgi : c.heap.get i with
    | none => rw [Weak.obs_clone_heap_none _ _ hgi]; exact hInv j
    | some cb =>
      rw [Weak.obs_clone_heap _ _ _ hgi]
      by_cases hji : j = i
      · subst hji
        rw [Heap.strongAt_set_fields, ← hInv j, Heap.strongAt_eq _ _ _ hgi]
      · rw [Heap.strongAt_set_ne _ _ _ _ hji]
        exact hInv j
  | dropW i hm =>
    intro j
    show (Weak.drop c.heap ⟨⟨some i⟩⟩).strongAt j = _
    cases hgi : c.heap.get i with
    | none => rw [Weak.drop_heap_none2 _ _ hgi]; exact hInv j
    | some cb =>
      by_cases hc : cb.weak - 1 = 0 ∧ cb.strong = 0
      · rw [Weak.obs_drop_heap_free _ _ _ hgi hc]
        by_cases hji : j = i
        · subst hji
          rw [Heap.strongAt_set_none, ← hInv j, Heap.strongAt_eq _ _ _ hgi,
            hc.2]
        · rw [Heap.strongAt_set_ne _ _ _ _ hji]
          exact hInv j
      · rw [Weak.obs_drop_heap_dec _ _ _ hgi hc]
        by_cases hji : j = i
        · subst hji
          rw [Heap.strongAt_set_fields, ← hInv j, Heap.strongAt_eq _ _ _ hgi]
        · rw [Heap.strongAt_set_ne _ _ _ _ hji]
          exact hInv j
  | upgradeW i hm =>
    intro j
    by_cases hz : c.heap.strongAt i = 0
    · show ((Weak.upgrade c.heap ⟨⟨some i⟩⟩).2).strongAt j
        = List.count j (if c.heap.strongAt i = 0 then c.owners
            else i :: c.owners)
      rw [if_pos hz, Weak.upgrade_heap_zero _ _ hz]
      exact hInv j
    · obtain ⟨cb, hgi, hnz⟩ :
          ∃ cb, c.heap.get i = some cb ∧ ¬ cb.strong = 0 := by
        cases hgi : c.heap.get i with
        | none => exact absurd (Heap.strongAt_none _ _ hgi) hz
        | some cb =>
          refine ⟨cb, rfl, ?_⟩
          rw [Heap.strongAt_eq _ _ _ hgi] at hz
          exact hz
      show ((Weak.upgrade c.heap ⟨⟨some i⟩⟩).2).strongAt j
        = List.count j (if c.heap.strongAt i = 0 then c.owners
            else i :: c.owners)
      rw [if_neg hz, Weak.upgrade_heap_pos _ _ _ hgi hnz]
      by_cases hji : j = i
      · subst hji
        rw [Heap.strongAt_set_fields, List.count_cons_self, ← hInv j,
          Heap.strongAt_eq _ _ _ hgi]
      · rw [Heap.strongAt_set_ne _ _ _ _ hji, List.count_cons_of_ne hji]
        exact hInv j

theorem Step.dead {c c' : Config α} (i : Nat) (hInv : CInv c)
    (hs : Step c c') (hdead : List.count i c.owners = 0) :
    List.count i c'.owners = 0 ∧
      (c.heap.valueAt i = none → c'.heap.valueAt i = none) := by
  cases hs with
  | cloneA j hm =>
    have hij : i ≠ j := by
      intro he
      subst he
      exact absurd (List.count_pos_iff.mpr hm) (by omega)
    refine ⟨?_, ?_⟩
    · show List.count i (j :: c.owners) = 0
      rw [List.count_cons_of_ne hij]
      exact hdead
    · intro hv
      show ((Arc.clone c.heap ⟨⟨j⟩⟩).2).valueAt i = none
      rw [Arc.clone_valueAt]
      exact hv
  | dropA j hm =>
    have hij : i ≠ j := by
      intro he
      subst he
      exact absurd (List.count_pos_iff.mpr hm) (by omega)
    refine ⟨?_, ?_⟩
    · show List.count i (c.owners.erase j) = 0
      rw [List.count_erase_of_ne hij]
      exact hdead
    · exact fun hv => Arc.drop_valueAt_none _ _ _ hv
  | downgradeA j hm =>
    refine ⟨hdead, ?_⟩
    intro hv
    show ((Arc.downgrade c.heap ⟨⟨j⟩⟩).2).valueAt i = none
    rw [Arc.downgrade_valueAt]
    exact hv
  | cloneW j hm =>
    refine ⟨hdead, ?_⟩
    intro hv
    show ((Weak.clone c.heap ⟨⟨some j⟩⟩).2).valueAt i = none
    rw [Weak.obs_clone_valueAt]
    exact hv
  | dropW j hm =>
    exact ⟨hdead, fun hv => Weak.obs_drop_valueAt_none _ _ _ hv⟩
  | upgradeW j hm =>
    refine ⟨?_, ?_⟩
    · show List.count i
        (if c.heap.strongAt j = 0 then c.owners else j :: c.owners) = 0
      by_cases hz : c.heap.strongAt j = 0
      · rw [if_pos hz]
        exact hdead
      · have hij : i ≠ j := by
          intro he
          subst he
          exact hz (by rw [hInv i]; exact hdead)
        rw [if_neg hz, List.count_cons_of_ne hij]
        exact hdead
    · intro hv
      show ((Weak.upgrade c.heap ⟨⟨some j⟩⟩).2).valueAt i = none
      rw [Weak.upgrade_valueAt]
      exact hv

theorem reach_dead {c c' : Config α} (i : Nat) (hInv : CInv c)
    (hsteps : Relation.ReflTransGen Step c c')
    (hdead : List.count i c.owners = 0) (hval : c.heap.valueAt i = none) :
    CInv c' ∧ List.count i c'.owners = 0 ∧ c'.heap.valueAt i = none := by
  induction hsteps with
  | refl => exact ⟨hInv, hdead, hval⟩
  | tail hab hbc ih =>
    obtain ⟨ih1, ih2, ih3⟩ := ih
    exact ⟨CInv.step ih1 hbc, (Step.dead i ih1 hbc ih2).1,
      (Step.dead i ih1 hbc ih2).2 ih3⟩

/-- Claim C7: `upgrade` on an observer handle into block `i` succeeds if
and only if the value is still alive (`strong > 0` at the linearization
point of the atomic step), and it never increments the strong counter past
zero: with `strong = 0` it returns `none` and leaves the state untouched.
Moreover, under an arbitrary interleaving of concurrent clones, drops,
downgrades and upgrades by threads holding live handles (any `Step`
sequence from a configuration satisfying the counting invariant), once no
owning handle to `i` remains and its payload is destroyed, every reachable
configuration still has `strong = 0` and a destroyed payload at `i`, and
`upgrade` there still fails without resurrecting the value. -/
theorem weak_upgrade_protocol (h : Heap α) (i : Nat) {c c' : Config α}
    (hInv : CInv c) (hsteps : Relation.ReflTransGen Step c c')
    (hdead : List.count i c.owners = 0) (hval : c.heap.valueAt i = none) :
    ((Weak.upgrade h (⟨⟨some i⟩⟩ : Weak α)).1.isSome = true
        ↔ 0 < h.strongAt i) ∧
    (h.strongAt i = 0 →
        Weak.upgrade h (⟨⟨some i⟩⟩ : Weak α) = (none, h)) ∧
    (c'.heap.strongAt i = 0 ∧ c'.heap.valueAt i = none ∧
        Weak.upgrade c'.heap (⟨⟨some i⟩⟩ : Weak α) = (none, c'.heap)) := by
  have part1 : ∀ h2 : Heap α,
      ((Weak.upgrade h2 (⟨⟨some i⟩⟩ : Weak α)).1.isSome = true
        ↔ 0 < h2.strongAt i) := by
    intro h2
    cases hgi : h2.get i with
    | none =>
      rw [Heap.strongAt_none _ _ hgi]
      simp [Weak.upgrade, StdWeak.upgrade, hgi]
    | some cb =>
      rw [Heap.strongAt_eq _ _ _ hgi]
      by_cases hz : cb.strong = 0
      · simp [Weak.upgrade, StdWeak.upgrade, hgi, hz]
      · simp only [Weak.upgrade, StdWeak.upgrade, hgi, if_neg hz]
        simpa using Nat.pos_of_ne_zero hz
  obtain ⟨hI, hcnt, hv⟩ := reach_dead i hInv hsteps hdead hval
  have hz' : c'.heap.strongAt i = 0 := by
    rw [hI i]
    exact hcnt
  exact ⟨part1 h, fun hz => Weak.upgrade_heap_zero h i hz, hz', hv,
    Weak.upgrade_heap_zero _ i hz'⟩

theorem weak_upgrade_protocol_w :
    (CInv (⟨deadHeap, [], [0]⟩ : Config Nat) ∧
     List.count 0 ([] : List Nat) = 0 ∧ deadHeap.valueAt 0 = none) ∧
    ((Weak.upgrade liveHeap (⟨⟨some 0⟩⟩ : Weak Nat)).1.isSome = true
        ↔ 0 < liveHeap.strongAt 0) ∧
    (deadHeap.strongAt 0 = 0 ∧
     Weak.upgrade deadHeap (⟨⟨some 0⟩⟩ : Weak Nat) = (none, deadHeap)) := by
  have hInv : CInv (⟨deadHeap, [], [0]⟩ : Config Nat) := by
    intro i
    show deadHeap.strongAt i = List.count i ([] : List Nat)
    unfold deadHeap Heap.strongAt Heap.get Heap.set Heap.empty
    by_cases hi : i = 0 <;> simp [hi]
  have hmain := weak_upgrade_protocol (α := Nat) liveHeap 0 hInv
    Relation.ReflTransGen.refl rfl rfl
  exact ⟨⟨hInv, rfl, rfl⟩, hmain.1, hmain.2.2.1, hmain.2.2.2.2⟩
